import Mathlib

/-!
# Verification of the social-interaction core of `monstereo`

Shallow embedding of `src/monstereo/activity.py` (`social_interactions` and
`check_f_formations`) over the real numbers, together with theorems settling
the frozen claims about it.

Modelling conventions:
* Python floats are modelled as real numbers (`ℝ`); `math.sqrt`/`np.linalg.norm`
  become `Real.sqrt`, `math.cos`/`math.sin` become `Real.cos`/`Real.sin`, and
  `math.atan2 y x` becomes `Complex.arg ⟨x, y⟩` (same branch convention:
  values in `(-π, π]`, `atan2 0 0 = 0`).
* The `N` people are indexed by `Fin n`; the parallel Python lists `centers`
  and `angles` become functions out of `Fin n`.
* `np.argsort` is modelled as a stable ascending sort of the index list
  (ties keep their index order, matching numpy's stable behaviour on the
  small arrays this code sorts).
* `laplace_sampling` lives in `monstereo/network/process.py`, outside the
  sources provided; it is modelled from the spec as location plus scale times
  an arbitrary standard-Laplace draw (see `laplace_sampling` below).
* Real-valued comparisons are decided classically; the definitions follow the
  source control flow statement by statement (early `return True` loops become
  the recursive `firstTrue`), and Python exceptions are modelled by
  `Except String`.
-/

open Classical

/-- Python `math.atan2 y x`, i.e. the argument of the complex number `x + y*I`,
with values in `(-π, π]` and `atan2 0 0 = 0`. -/
noncomputable def atan2 (y x : ℝ) : ℝ := Complex.arg ⟨x, y⟩

/-- `np.linalg.norm (p - q)` for 2-vectors: the planar Euclidean distance. -/
noncomputable def dist2 (p q : ℝ × ℝ) : ℝ :=
  Real.sqrt ((p.1 - q.1) ^ 2 + (p.2 - q.2) ^ 2)

/-- `np.min` of a (nonempty) list of reals; the `[]` case never arises below. -/
noncomputable def npMin : List ℝ → ℝ
  | [] => 0
  | x :: xs => xs.foldl min x

/-- A Python loop `for x in l: if p x: return True` followed by `return False`. -/
noncomputable def firstTrue {α : Type} (p : α → Prop) : List α → Bool
  | [] => false
  | x :: xs => if p x then true else firstTrue p xs

/-! ## `check_f_formations` (src/monstereo/activity.py, lines 76-113) -/

/-- The projected point `mu = (c.x + r*cos θ, c.z - r*sin θ)` of a person with
center `c` and orientation `θ` at radius `r` (source lines 94-95). -/
noncomputable def muPoint (c : ℝ × ℝ) (θ r : ℝ) : ℝ × ℝ :=
  (c.1 + r * Real.cos θ, c.2 - r * Real.sin θ)

/-- The candidate O-space center `o_c = (mu_0 + mu_1) / 2` (source line 96). -/
noncomputable def oCenter {n : ℕ} (idx idx_t : Fin n) (centers : Fin n → ℝ × ℝ)
    (angles : Fin n → ℝ) (radius : ℝ) : ℝ × ℝ :=
  (((muPoint (centers idx) (angles idx) radius).1 +
      (muPoint (centers idx_t) (angles idx_t) radius).1) / 2,
   ((muPoint (centers idx) (angles idx) radius).2 +
      (muPoint (centers idx_t) (angles idx_t) radius).2) / 2)

/-- `d_new = |mu_0 - mu_1|`, halved when `social_distance` (source line 100). -/
noncomputable def dNew {n : ℕ} (idx idx_t : Fin n) (centers : Fin n → ℝ × ℝ)
    (angles : Fin n → ℝ) (social_distance : Bool) (radius : ℝ) : ℝ :=
  if social_distance then
    dist2 (muPoint (centers idx) (angles idx) radius)
      (muPoint (centers idx_t) (angles idx_t) radius) / 2
  else
    dist2 (muPoint (centers idx) (angles idx) radius)
      (muPoint (centers idx_t) (angles idx_t) radius)

/-- Orientation condition `d_new <= min(d_0, d_1)` (source line 111, left
conjunct), with `d_0 = |x_0 - o_c|` and `d_1 = |x_1 - o_c|`. -/
noncomputable def orientationCond {n : ℕ} (idx idx_t : Fin n)
    (centers : Fin n → ℝ × ℝ) (angles : Fin n → ℝ) (social_distance : Bool)
    (radius : ℝ) : Prop :=
  dNew idx idx_t centers angles social_distance radius ≤
    min (dist2 (centers idx) (oCenter idx idx_t centers angles radius))
        (dist2 (centers idx_t) (oCenter idx idx_t centers angles radius))

/-- `other_centers`: the centers of everyone except `idx` and `idx_t`
(source line 84). -/
def otherCenters {n : ℕ} (idx idx_t : Fin n) (centers : Fin n → ℝ × ℝ) :
    List (ℝ × ℝ) :=
  ((List.finRange n).filter (fun l => decide (l ≠ idx ∧ l ≠ idx_t))).map centers

/-- `other_distances`: distances of third parties to `o_c`, or the sentinel
list `[100]` when there are no third parties (source lines 104-107). -/
noncomputable def otherDistances {n : ℕ} (idx idx_t : Fin n)
    (centers : Fin n → ℝ × ℝ) (oc : ℝ × ℝ) : List ℝ :=
  if otherCenters idx idx_t centers = [] then [100]
  else (otherCenters idx idx_t centers).map (fun c => dist2 c oc)

/-- Intrusion condition `np.min(other_distances) > radius` (source line 111,
right conjunct). -/
noncomputable def intrusionCond {n : ℕ} (idx idx_t : Fin n)
    (centers : Fin n → ℝ × ℝ) (angles : Fin n → ℝ) (radius : ℝ) : Prop :=
  npMin (otherDistances idx idx_t centers
    (oCenter idx idx_t centers angles radius)) > radius

/-- The per-radius test of `check_f_formations`: both conditions of source
line 111. -/
noncomputable def fCond {n : ℕ} (idx idx_t : Fin n) (centers : Fin n → ℝ × ℝ)
    (angles : Fin n → ℝ) (social_distance : Bool) (radius : ℝ) : Prop :=
  orientationCond idx idx_t centers angles social_distance radius ∧
    intrusionCond idx idx_t centers angles radius

/-- `check_f_formations(idx, idx_t, centers, angles, radii, social_distance)`:
iterate over `radii`, returning `True` at the first radius whose orientation
and intrusion conditions both hold, else `False` (source lines 76-113). -/
noncomputable def check_f_formations {n : ℕ} (idx idx_t : Fin n)
    (centers : Fin n → ℝ × ℝ) (angles : Fin n → ℝ) (radii : List ℝ)
    (social_distance : Bool) : Bool :=
  firstTrue (fCond idx idx_t centers angles social_distance) radii

/-! ## Stable argsort model (`np.argsort`, source line 35)

`np.argsort` on the distance list is modelled as a stable ascending sort of
the index list `[0, ..., n-1]` by distance: ties keep their index order,
matching numpy's stable behaviour on the small arrays this code sorts. -/

/-- Insert `x` into a sorted list, before the first element whose key is not
strictly smaller than `x`'s (so earlier elements win ties: stability). -/
noncomputable def sInsert {α : Type} (key : α → ℝ) (x : α) : List α → List α
  | [] => [x]
  | y :: ys => if key y < key x then y :: sInsert key x ys else x :: y :: ys

/-- Stable ascending insertion sort by a real-valued key. -/
noncomputable def sSort {α : Type} (key : α → ℝ) : List α → List α
  | [] => []
  | x :: xs => sInsert key x (sSort key xs)

/-! ## `social_interactions` (src/monstereo/activity.py, lines 25-73) -/

/-- The distance list of source line 34: planar Euclidean distance from
person `idx` to person `i` (including `i = idx` itself, distance `0`). -/
noncomputable def distances {n : ℕ} (idx : Fin n) (centers : Fin n → ℝ × ℝ)
    (i : Fin n) : ℝ :=
  Real.sqrt (((centers idx).1 - (centers i).1) ^ 2 +
    ((centers idx).2 - (centers i).2) ^ 2)

/-- `sorted_idxs = np.argsort(distances)` (source line 35). -/
noncomputable def sorted_idxs {n : ℕ} (idx : Fin n) (centers : Fin n → ℝ × ℝ) :
    List (Fin n) :=
  sSort (distances idx centers) (List.finRange n)

/-- The candidate set of source line 36:
`[idx_t for idx_t in sorted_idxs[1:] if distances[idx_t] <= threshold_dist]`. -/
noncomputable def indices {n : ℕ} (idx : Fin n) (centers : Fin n → ℝ × ℝ)
    (threshold_dist : ℝ) : List (Fin n) :=
  ((sorted_idxs idx centers).drop 1).filter
    (fun idx_t => decide (distances idx centers idx_t ≤ threshold_dist))

/-- Modelled from the spec: `laplace_sampling` (in
`monstereo/network/process.py`, not among the provided sources) draws, for
each person `el`, `n_samples` independent samples from a Laplace distribution
with location `dds el` and scale `stds el`.  The draw is modelled as location
plus scale times an arbitrary standard-Laplace value `noise s el`, so a zero
scale forces every sample to equal the location. -/
noncomputable def laplace_sampling {n : ℕ} (noise : ℕ → Fin n → ℝ)
    (dds stds : Fin n → ℝ) (s : ℕ) (el : Fin n) : ℝ :=
  dds el + stds el * noise s el

/-- `copy.deepcopy(centers)` (source line 61): a fresh copy of the caller's
position data, sharing no mutable structure with it. -/
def deepcopy {n : ℕ} (centers : Fin n → ℝ × ℝ) : Fin n → ℝ × ℝ :=
  fun i => centers i

/-- One iteration of the perturbation loop `for el in (idx, idx_t)` (source
lines 62-68): shift person `el` of the working copy `nc` along its camera ray
by `delta_d = dds[el] - samples_d[s_d, el]`. -/
noncomputable def perturb_el {n : ℕ} (dds samplesRow : Fin n → ℝ)
    (nc : Fin n → ℝ × ℝ) (el : Fin n) : Fin n → ℝ × ℝ :=
  Function.update nc el
    ((nc el).1 + (dds el - samplesRow el) * Real.cos (atan2 (nc el).2 (nc el).1),
     (nc el).2 + (dds el - samplesRow el) * Real.sin (atan2 (nc el).2 (nc el).1))

/-- `new_centers` for one Monte-Carlo sample `s` (source lines 61-68): a deep
copy of `centers` with the two people `idx` and `idx_t` perturbed in turn. -/
noncomputable def new_centers {n : ℕ} (noise : ℕ → Fin n → ℝ)
    (dds stds : Fin n → ℝ) (centers : Fin n → ℝ × ℝ) (s : ℕ)
    (idx idx_t : Fin n) : Fin n → ℝ × ℝ :=
  [idx, idx_t].foldl (perturb_el dds (laplace_sampling noise dds stds s))
    (deepcopy centers)

/-- `f_forms` for one candidate `idx_t` (source lines 60-71): the per-sample
booleans of `check_f_formations` on the perturbed centers. -/
noncomputable def f_forms {n : ℕ} (noise : ℕ → Fin n → ℝ)
    (dds stds : Fin n → ℝ) (centers : Fin n → ℝ × ℝ) (angles : Fin n → ℝ)
    (radii : List ℝ) (social_distance : Bool) (n_samples : ℕ)
    (idx idx_t : Fin n) : List Bool :=
  (List.range n_samples).map fun s =>
    check_f_formations idx idx_t (new_centers noise dds stds centers s idx idx_t)
      angles radii social_distance

/-- `social_interactions(idx, centers, angles, dds, stds, social_distance,
n_samples, threshold_prob, threshold_dist, radii)` (source lines 25-73).

Python exceptions are modelled by `.error`: on the probabilistic path
(`n_samples ≥ 2`) the calls `torch.tensor(dds)` / `torch.tensor(stds)` raise
when the argument is `None`, hence the `Option` match; no other statement of
the function can raise for in-range indices, and no argument validation is
performed.  `noise` carries the Monte-Carlo randomness of `laplace_sampling`
(unused on the deterministic path). -/
noncomputable def social_interactions {n : ℕ} (noise : ℕ → Fin n → ℝ)
    (idx : Fin n) (centers : Fin n → ℝ × ℝ) (angles : Fin n → ℝ)
    (dds stds : Option (Fin n → ℝ)) (social_distance : Bool) (n_samples : ℕ)
    (threshold_prob threshold_dist : ℝ) (radii : List ℝ) :
    Except String Bool :=
  if n_samples < 2 then
    .ok (firstTrue
      (fun idx_t =>
        check_f_formations idx idx_t centers angles radii social_distance = true)
      (indices idx centers threshold_dist))
  else
    match dds, stds with
    | some d, some st =>
      .ok (firstTrue
        (fun idx_t =>
          ((f_forms noise d st centers angles radii social_distance n_samples
              idx idx_t).count true : ℝ) / (n_samples : ℝ) ≥ threshold_prob)
        (indices idx centers threshold_dist))
    | _, _ => .error "could not infer dtype of NoneType"

/-- The caller-visible state after a call to `social_interactions`: the result
together with the contents of the caller-owned `centers` and `angles` arrays
at return time.  Every write the source performs goes to the per-sample deep
copy `new_centers` (source lines 61-68); no statement assigns to `centers` or
`angles`, so the returned state carries them through unchanged. -/
noncomputable def social_interactions_run {n : ℕ} (noise : ℕ → Fin n → ℝ)
    (idx : Fin n) (centers : Fin n → ℝ × ℝ) (angles : Fin n → ℝ)
    (dds stds : Option (Fin n → ℝ)) (social_distance : Bool) (n_samples : ℕ)
    (threshold_prob threshold_dist : ℝ) (radii : List ℝ) :
    Except String Bool × ((Fin n → ℝ × ℝ) × (Fin n → ℝ)) :=
  (social_interactions noise idx centers angles dds stds social_distance
      n_samples threshold_prob threshold_dist radii,
   (centers, angles))

/-! ## Concrete scenarios used by counterexamples and witnesses -/

/-- Two people one metre apart facing each other (spec §8, scenario 1). -/
noncomputable def facePairC : Fin 2 → ℝ × ℝ := ![(0, 0), (1, 0)]

/-- Orientations of `facePairC`: facing `(1, 0)` and `(-1, 0)` respectively. -/
noncomputable def facePairA : Fin 2 → ℝ := ![0, Real.pi]

/-- Two people 200 m apart facing each other, for radius 100. -/
noncomputable def sentinelC : Fin 2 → ℝ × ℝ := ![(0, 0), (200, 0)]

/-- Orientations of `sentinelC`. -/
noncomputable def sentinelA : Fin 2 → ℝ := ![0, Real.pi]

/-- `facePairC` plus a third person at `(1, 0)`. -/
noncomputable def trioC : Fin 3 → ℝ × ℝ := ![(0, 0), (1, 0), (1, 0)]

/-- Orientations of `trioC`. -/
noncomputable def trioA : Fin 3 → ℝ := ![0, Real.pi, 0]

/-- Two people exactly two metres apart. -/
noncomputable def farPairC : Fin 2 → ℝ × ℝ := ![(0, 0), (2, 0)]

/-- A scene with a single person at the origin. -/
noncomputable def soloC : Fin 1 → ℝ × ℝ := fun _ => (0, 0)

/-- Orientation of `soloC`. -/
noncomputable def soloA : Fin 1 → ℝ := fun _ => 0

/-- Zero Monte-Carlo noise for the single-person scene. -/
noncomputable def noiseZero1 : ℕ → Fin 1 → ℝ := fun _ _ => 0

/-! ## Lemmas about the loop combinator -/

lemma firstTrue_nil {α : Type} (p : α → Prop) : firstTrue p [] = false := rfl

lemma firstTrue_cons {α : Type} (p : α → Prop) (x : α) (xs : List α) :
    firstTrue p (x :: xs) = if p x then true else firstTrue p xs := rfl

lemma firstTrue_eq_true_iff {α : Type} (p : α → Prop) (l : List α) :
    firstTrue p l = true ↔ ∃ x ∈ l, p x := by
  induction l with
  | nil => simp [firstTrue_nil]
  | cons x xs ih =>
    rw [firstTrue_cons]
    by_cases h : p x
    · simp [h]
    · simp [h, ih]

lemma firstTrue_congr {α : Type} (p q : α → Prop) (l : List α)
    (h : ∀ x ∈ l, (p x ↔ q x)) : firstTrue p l = firstTrue q l := by
  induction l with
  | nil => rfl
  | cons x xs ih =>
    rw [firstTrue_cons, firstTrue_cons,
      ih (fun y hy => h y (List.mem_cons_of_mem x hy))]
    by_cases hx : p x
    · rw [if_pos hx, if_pos ((h x (List.mem_cons_self x xs)).1 hx)]
    · rw [if_neg hx, if_neg (fun hq => hx ((h x (List.mem_cons_self x xs)).2 hq))]

lemma check_f_formations_eq_true_iff {n : ℕ} (idx idx_t : Fin n)
    (centers : Fin n → ℝ × ℝ) (angles : Fin n → ℝ) (radii : List ℝ)
    (social_distance : Bool) :
    check_f_formations idx idx_t centers angles radii social_distance = true ↔
      ∃ r ∈ radii, orientationCond idx idx_t centers angles social_distance r ∧
        intrusionCond idx idx_t centers angles r := by
  rw [check_f_formations, firstTrue_eq_true_iff]
  rfl

/-! ## Lemmas about the stable sort -/

lemma sInsert_nil {α : Type} (key : α → ℝ) (x : α) : sInsert key x [] = [x] := rfl

lemma sInsert_cons {α : Type} (key : α → ℝ) (x y : α) (ys : List α) :
    sInsert key x (y :: ys) =
      if key y < key x then y :: sInsert key x ys else x :: y :: ys := rfl

lemma sInsert_perm {α : Type} (key : α → ℝ) (x : α) (l : List α) :
    (sInsert key x l).Perm (x :: l) := by
  induction l with
  | nil => simp [sInsert_nil]
  | cons y ys ih =>
    rw [sInsert_cons]
    by_cases h : key y < key x
    · rw [if_pos h]
      exact (ih.cons y).trans (List.Perm.swap x y ys)
    · rw [if_neg h]

lemma sSort_perm {α : Type} (key : α → ℝ) (l : List α) :
    (sSort key l).Perm l := by
  induction l with
  | nil => exact List.Perm.refl []
  | cons x xs ih =>
    exact (sInsert_perm key x (sSort key xs)).trans (ih.cons x)

lemma mem_sSort {α : Type} (key : α → ℝ) (l : List α) (a : α) :
    a ∈ sSort key l ↔ a ∈ l :=
  (sSort_perm key l).mem_iff

/-- The head of the stable sort is a minimiser of the key. -/
lemma sSort_head_min {α : Type} (key : α → ℝ) (l : List α) (h : α) (t : List α)
    (hst : sSort key l = h :: t) : ∀ a ∈ l, key h ≤ key a := by
  induction l generalizing h t with
  | nil => simp [sSort] at hst
  | cons x xs ih =>
    intro a ha
    rw [sSort] at hst
    rcases hs : sSort key xs with _ | ⟨y, ys⟩
    · rw [hs, sInsert_nil] at hst
      have hxh : x = h := by injection hst
      subst hxh
      have hxs : xs.Perm [] := by
        have h' := (sSort_perm key xs).symm
        rw [hs] at h'
        exact h'
      rw [hxs.eq_nil] at ha
      rcases List.mem_singleton.mp ha with rfl
      exact le_refl _
    · rw [hs, sInsert_cons] at hst
      by_cases hlt : key y < key x
      · rw [if_pos hlt] at hst
        have hy : y = h := by injection hst
        subst hy
        rcases List.mem_cons.mp ha with rfl | ha'
        · exact le_of_lt hlt
        · exact ih y ys hs a ha'
      · rw [if_neg hlt] at hst
        have hx : x = h := by injection hst
        subst hx
        rcases List.mem_cons.mp ha with rfl | ha'
        · exact le_refl _
        · exact le_trans (not_lt.mp hlt) (ih y ys hs a ha')

/-- Stability at the head: if `x` has a strictly smaller key than everything
before it and a key no larger than everything after it, the stable sort puts
`x` first. -/
lemma sSort_head_stable {α : Type} (key : α → ℝ) (x : α) (l₁ l₂ : List α)
    (h₁ : ∀ a ∈ l₁, key x < key a) (h₂ : ∀ a ∈ l₂, key x ≤ key a) :
    ∃ t, sSort key (l₁ ++ x :: l₂) = x :: t := by
  induction l₁ with
  | nil =>
    rw [List.nil_append, sSort]
    rcases hs : sSort key l₂ with _ | ⟨y, ys⟩
    · exact ⟨[], by rw [sInsert_nil]⟩
    · have hy : y ∈ l₂ := (mem_sSort key l₂ y).mp (hs ▸ List.mem_cons_self y ys)
      refine ⟨y :: ys, ?_⟩
      rw [sInsert_cons, if_neg (not_lt.mpr (h₂ y hy))]
  | cons a l₁' ih =>
    obtain ⟨t, ht⟩ := ih (fun b hb => h₁ b (List.mem_cons_of_mem a hb))
    rw [List.cons_append, sSort, ht, sInsert_cons,
      if_pos (h₁ a (List.mem_cons_self a l₁'))]
    exact ⟨sInsert key a t, rfl⟩

/-- Split a strictly increasing list at a member. -/
lemma pairwise_lt_split {α : Type} [Preorder α] (l : List α) (x : α)
    (hp : l.Pairwise (· < ·)) (hx : x ∈ l) :
    ∃ l₁ l₂, l = l₁ ++ x :: l₂ ∧ (∀ a ∈ l₁, a < x) ∧ (∀ a ∈ l₂, x < a) := by
  obtain ⟨l₁, l₂, rfl⟩ := List.append_of_mem hx
  refine ⟨l₁, l₂, rfl, ?_, ?_⟩
  · intro a ha
    exact (List.pairwise_append.mp hp).2.2 a ha x (List.mem_cons_self x l₂)
  · intro a ha
    exact (List.pairwise_cons.mp (List.pairwise_append.mp hp).2.1).1 a ha

/-! ## Lemmas about distances and `np.min` -/

lemma foldl_min_le_init (xs : List ℝ) (x : ℝ) : xs.foldl min x ≤ x := by
  induction xs generalizing x with
  | nil => exact le_refl x
  | cons y ys ih =>
    rw [List.foldl_cons]
    exact le_trans (ih (min x y)) (min_le_left x y)

lemma foldl_min_le (xs : List ℝ) (x a : ℝ) (h : a = x ∨ a ∈ xs) :
    xs.foldl min x ≤ a := by
  induction xs generalizing x with
  | nil =>
    rcases h with rfl | h'
    · exact le_refl _
    · exact absurd h' (List.not_mem_nil a)
  | cons y ys ih =>
    rw [List.foldl_cons]
    rcases h with rfl | h'
    · exact le_trans (foldl_min_le_init ys (min a y)) (min_le_left a y)
    · rcases List.mem_cons.mp h' with rfl | h''
      · exact le_trans (foldl_min_le_init ys (min x a)) (min_le_right x a)
      · exact ih (min x y) (Or.inr h'')

lemma npMin_le_of_mem (l : List ℝ) (a : ℝ) (h : a ∈ l) : npMin l ≤ a := by
  cases l with
  | nil => exact absurd h (List.not_mem_nil a)
  | cons x xs =>
    rw [npMin]
    rcases List.mem_cons.mp h with rfl | h'
    · exact foldl_min_le xs a a (Or.inl rfl)
    · exact foldl_min_le xs x a (Or.inr h')

lemma distances_nonneg {n : ℕ} (idx i : Fin n) (centers : Fin n → ℝ × ℝ) :
    0 ≤ distances idx centers i :=
  Real.sqrt_nonneg _

lemma distances_self {n : ℕ} (idx : Fin n) (centers : Fin n → ℝ × ℝ) :
    distances idx centers idx = 0 := by
  simp [distances]

lemma distances_eq_zero {n : ℕ} (idx j : Fin n) (centers : Fin n → ℝ × ℝ)
    (h : distances idx centers j = 0) : centers j = centers idx := by
  rw [distances, Real.sqrt_eq_zero'] at h
  have h1 : (centers idx).1 - (centers j).1 = 0 := by nlinarith [sq_nonneg ((centers idx).1 - (centers j).1), sq_nonneg ((centers idx).2 - (centers j).2)]
  have h2 : (centers idx).2 - (centers j).2 = 0 := by nlinarith [sq_nonneg ((centers idx).1 - (centers j).1), sq_nonneg ((centers idx).2 - (centers j).2)]
  have e1 : (centers j).1 = (centers idx).1 := by linarith
  have e2 : (centers j).2 = (centers idx).2 := by linarith
  exact Prod.ext e1 e2

lemma sorted_idxs_nodup {n : ℕ} (idx : Fin n) (centers : Fin n → ℝ × ℝ) :
    (sorted_idxs idx centers).Nodup :=
  ((sSort_perm (distances idx centers) (List.finRange n)).nodup_iff).mpr
    (List.nodup_finRange n)

/-! ## Claims C1 and C6 -/

/-- C1: for valid indices and non-empty radii, `check_f_formations` returns
true iff some radius `r` in `radii` satisfies both the orientation condition
`d_new ≤ min (d_0, d_1)` (with `d_new = |mu_0 - mu_1|`, halved exactly when
`social_distance`, the `mu`s projected by `r` along the facings and
`o_c = (mu_0 + mu_1)/2`) and the intrusion condition of that same radius. -/
theorem check_f_formations_exists_radius {n : ℕ} (idx idx_t : Fin n)
    (centers : Fin n → ℝ × ℝ) (angles : Fin n → ℝ) (radii : List ℝ)
    (social_distance : Bool) (hne : radii ≠ []) :
    check_f_formations idx idx_t centers angles radii social_distance = true ↔
      ∃ r ∈ radii, orientationCond idx idx_t centers angles social_distance r ∧
        intrusionCond idx idx_t centers angles r :=
  check_f_formations_eq_true_iff idx idx_t centers angles radii social_distance

/-- C6: radius-set monotonicity: if `check_f_formations` returns true on
`radii`, it returns true on any `radii'` containing every element of `radii`. -/
theorem check_f_formations_radii_superset {n : ℕ} (idx idx_t : Fin n)
    (centers : Fin n → ℝ × ℝ) (angles : Fin n → ℝ) (radii radii' : List ℝ)
    (social_distance : Bool) (hsub : ∀ r ∈ radii, r ∈ radii')
    (h : check_f_formations idx idx_t centers angles radii social_distance
      = true) :
    check_f_formations idx idx_t centers angles radii' social_distance
      = true := by
  rw [check_f_formations_eq_true_iff] at h ⊢
  obtain ⟨r, hr, hcond⟩ := h
  exact ⟨r, hsub r hr, hcond⟩

/-! ## Claim C3 -/

/-- C3, counterexample: with two people at the identical position `(0, 0)` and
focal index `1`, the stable argsort puts index `0` first (ties keep index
order), so the entry dropped is `0`, not the focal index, and the candidate
set contains the focal index itself. -/
theorem candidate_set_contains_focal_ce :
    (1 : Fin 2) ∈ indices 1 (fun _ : Fin 2 => ((0 : ℝ), (0 : ℝ))) 2 := by
  have hkey : ∀ j : Fin 2,
      distances 1 (fun _ : Fin 2 => ((0 : ℝ), (0 : ℝ))) j = 0 := by
    intro j
    simp [distances]
  have hfr : List.finRange 2 = [(0 : Fin 2), 1] := by decide
  have hsorted : sorted_idxs 1 (fun _ : Fin 2 => ((0 : ℝ), (0 : ℝ))) = [0, 1] := by
    rw [sorted_idxs, hfr]
    simp only [sSort, sInsert_nil, sInsert_cons, hkey]
    rw [if_neg (lt_irrefl (0 : ℝ))]
  rw [indices, hsorted]
  simp only [List.drop_succ_cons, List.drop_zero, List.mem_filter, hkey]
  refine ⟨List.mem_singleton_self (1 : Fin 2), ?_⟩
  rw [decide_eq_true_eq]
  norm_num

/-- C3, amended: provided no person with a smaller index shares the focal
person's exact position, the entry dropped after the stable sort is always
the focal index `idx`, and the candidate set never contains `idx`. -/
theorem candidate_set_excludes_focal {n : ℕ} (idx : Fin n)
    (centers : Fin n → ℝ × ℝ) (threshold_dist : ℝ)
    (h : ∀ j : Fin n, j < idx → centers j ≠ centers idx) :
    (∃ t, sorted_idxs idx centers = idx :: t) ∧
      idx ∉ indices idx centers threshold_dist := by
  have h0 : distances idx centers idx = 0 := distances_self idx centers
  have hpos : ∀ j : Fin n, j < idx → 0 < distances idx centers j := by
    intro j hj
    rcases lt_or_eq_of_le (distances_nonneg idx j centers) with h' | h'
    · exact h'
    · exact absurd (distances_eq_zero idx j centers h'.symm) (h j hj)
  obtain ⟨l₁, l₂, hsplit, hl₁, hl₂⟩ :=
    pairwise_lt_split (List.finRange n) idx (List.pairwise_lt_finRange n)
      (List.mem_finRange idx)
  obtain ⟨t, ht⟩ := sSort_head_stable (distances idx centers) idx l₁ l₂
    (fun a ha => by rw [h0]; exact hpos a (hl₁ a ha))
    (fun a _ => by rw [h0]; exact distances_nonneg idx a centers)
  have hsorted : sorted_idxs idx centers = idx :: t := by
    rw [sorted_idxs, hsplit]
    exact ht
  refine ⟨⟨t, hsorted⟩, ?_⟩
  intro hmem
  rw [indices, hsorted, List.drop_succ_cons, List.drop_zero] at hmem
  have hidx_t : idx ∈ t := List.mem_of_mem_filter hmem
  have hnd := sorted_idxs_nodup idx centers
  rw [hsorted, List.nodup_cons] at hnd
  exact hnd.1 hidx_t

/-! ## Claim C5 -/

/-- C5: threshold boundary on the candidate set used by the deterministic
path: a person strictly farther than `threshold_dist` from the focal person is
never in the candidate set, while a person other than the focal one at
distance exactly `threshold_dist > 0` is always in the candidate set. -/
theorem threshold_dist_boundary {n : ℕ} (idx j : Fin n)
    (centers : Fin n → ℝ × ℝ) (threshold_dist : ℝ) :
    (distances idx centers j > threshold_dist →
      j ∉ indices idx centers threshold_dist) ∧
    (j ≠ idx → distances idx centers j = threshold_dist → 0 < threshold_dist →
      j ∈ indices idx centers threshold_dist) := by
  constructor
  · intro hfar hmem
    have := List.of_mem_filter hmem
    rw [decide_eq_true_eq] at this
    exact absurd this (not_le.mpr hfar)
  · intro hne heq hpos
    rcases hs : sorted_idxs idx centers with _ | ⟨h0, t⟩
    · exfalso
      have : idx ∈ sorted_idxs idx centers := by
        rw [sorted_idxs]
        exact (mem_sSort _ _ idx).mpr (List.mem_finRange idx)
      rw [hs] at this
      exact List.not_mem_nil idx this
    · have hhead : distances idx centers h0 ≤ distances idx centers idx := by
        have hs' : sSort (distances idx centers) (List.finRange n) = h0 :: t := by
          rw [← sorted_idxs]
          exact hs
        exact sSort_head_min (distances idx centers) (List.finRange n) h0 t hs'
          idx (List.mem_finRange idx)
      have hh0 : distances idx centers h0 = 0 :=
        le_antisymm (by rw [distances_self] at hhead; exact hhead)
          (distances_nonneg idx h0 centers)
      have hjh : j ≠ h0 := by
        intro hcontr
        rw [hcontr, hh0] at heq
        exact absurd heq.symm (ne_of_gt hpos)
      have hjmem : j ∈ h0 :: t := by
        rw [← hs, sorted_idxs]
        exact (mem_sSort _ _ j).mpr (List.mem_finRange j)
      have hjt : j ∈ t := by
        rcases List.mem_cons.mp hjmem with rfl | h'
        · exact absurd rfl hjh
        · exact h'
      rw [indices, hs, List.drop_succ_cons, List.drop_zero]
      exact List.mem_filter.mpr ⟨hjt, by rw [decide_eq_true_eq, heq]⟩

/-! ## Evaluation helpers for concrete scenarios -/

lemma dist2_eval (p q : ℝ × ℝ) (d : ℝ) (hd : 0 ≤ d)
    (h : (p.1 - q.1) ^ 2 + (p.2 - q.2) ^ 2 = d ^ 2) : dist2 p q = d := by
  rw [dist2, h, Real.sqrt_sq hd]

lemma distances_eval {n : ℕ} (idx j : Fin n) (centers : Fin n → ℝ × ℝ) (d : ℝ)
    (hd : 0 ≤ d)
    (h : ((centers idx).1 - (centers j).1) ^ 2 +
      ((centers idx).2 - (centers j).2) ^ 2 = d ^ 2) :
    distances idx centers j = d := by
  rw [distances, h, Real.sqrt_sq hd]

lemma otherCenters_n2 (idx idx_t : Fin 2) (centers : Fin 2 → ℝ × ℝ)
    (h : idx ≠ idx_t) : otherCenters idx idx_t centers = [] := by
  rw [otherCenters]
  have hf : (List.finRange 2).filter (fun l => decide (l ≠ idx ∧ l ≠ idx_t)) = [] := by
    fin_cases idx <;> fin_cases idx_t <;> first | exact absurd rfl h | decide
  rw [hf, List.map_nil]

lemma intrusion_n2 (idx idx_t : Fin 2) (centers : Fin 2 → ℝ × ℝ)
    (angles : Fin 2 → ℝ) (r : ℝ) (h : idx ≠ idx_t) (hr : r < 100) :
    intrusionCond idx idx_t centers angles r := by
  rw [intrusionCond, otherDistances, if_pos (otherCenters_n2 idx idx_t centers h)]
  simpa [npMin] using hr

/-! ## Claim C2 -/

/-- C2, counterexample: with exactly two people 200 m apart facing each other
and the single positive radius `100`, the orientation condition holds but
`check_f_formations` returns `false`: the intrusion condition substitutes the
sentinel distance `100`, and `100 > 100` fails, so the intrusion check does
block a true result at radius `100` even with no third parties. -/
theorem n2_intrusion_blocks_ce :
    orientationCond 0 1 sentinelC sentinelA false 100 ∧ (0 : ℝ) < 100 ∧
      check_f_formations 0 1 sentinelC sentinelA [100] false = false := by
  have hc0 : sentinelC 0 = ((0 : ℝ), (0 : ℝ)) := rfl
  have hc1 : sentinelC 1 = ((200 : ℝ), (0 : ℝ)) := rfl
  have ha0 : sentinelA 0 = 0 := rfl
  have ha1 : sentinelA 1 = Real.pi := rfl
  have hmu0 : muPoint (sentinelC 0) (sentinelA 0) 100 = ((100 : ℝ), (0 : ℝ)) := by
    rw [hc0, ha0, muPoint]
    norm_num
  have hmu1 : muPoint (sentinelC 1) (sentinelA 1) 100 = ((100 : ℝ), (0 : ℝ)) := by
    rw [hc1, ha1, muPoint]
    norm_num [Real.cos_pi, Real.sin_pi]
  have hoc : oCenter 0 1 sentinelC sentinelA 100 = ((100 : ℝ), (0 : ℝ)) := by
    rw [oCenter, hmu0, hmu1]
    norm_num
  have hdnew : dNew 0 1 sentinelC sentinelA false 100 = 0 := by
    rw [dNew, if_neg Bool.false_ne_true, hmu0, hmu1]
    exact dist2_eval _ _ 0 le_rfl (by norm_num)
  have hd0 : dist2 (sentinelC 0) ((100 : ℝ), (0 : ℝ)) = 100 :=
    dist2_eval _ _ 100 (by norm_num) (by rw [hc0]; norm_num)
  have hd1 : dist2 (sentinelC 1) ((100 : ℝ), (0 : ℝ)) = 100 :=
    dist2_eval _ _ 100 (by norm_num) (by rw [hc1]; norm_num)
  have horient : orientationCond 0 1 sentinelC sentinelA false 100 := by
    rw [orientationCond, hdnew, hoc, hd0, hd1]
    norm_num
  have hint : ¬ intrusionCond 0 1 sentinelC sentinelA 100 := by
    rw [intrusionCond, otherDistances,
      if_pos (otherCenters_n2 0 1 sentinelC (by decide))]
    simp [npMin]
  refine ⟨horient, by norm_num, ?_⟩
  rw [check_f_formations, firstTrue_cons, if_neg (fun hc => hint hc.2),
    firstTrue_nil]

/-- C2, amended: with exactly two people and no third parties, the intrusion
check cannot block a true result for any positive radius *below the sentinel
value 100*: whenever the orientation condition holds at some `r ∈ radii` with
`0 < r < 100`, `check_f_formations` returns true. -/
theorem n2_intrusion_never_blocks (centers : Fin 2 → ℝ × ℝ)
    (angles : Fin 2 → ℝ) (idx idx_t : Fin 2) (radii : List ℝ) (sd : Bool)
    (r : ℝ) (hne : idx ≠ idx_t) (hr : r ∈ radii) (hpos : 0 < r) (hlt : r < 100)
    (horient : orientationCond idx idx_t centers angles sd r) :
    check_f_formations idx idx_t centers angles radii sd = true := by
  rw [check_f_formations_eq_true_iff]
  exact ⟨r, hr, horient, intrusion_n2 idx idx_t centers angles r hne hlt⟩

/-! ## Claim C9 -/

/-- C9: the intrusion boundary is strict: if a third person sits at distance
exactly `r` from the candidate O-space center, the per-radius test fails at
`r` and `check_f_formations` on the radius set `[r]` returns false. -/
theorem intrusion_boundary_strict {n : ℕ} (idx idx_t l : Fin n)
    (centers : Fin n → ℝ × ℝ) (angles : Fin n → ℝ) (sd : Bool) (r : ℝ)
    (h1 : l ≠ idx) (h2 : l ≠ idx_t)
    (h : dist2 (centers l) (oCenter idx idx_t centers angles r) = r) :
    ¬ fCond idx idx_t centers angles sd r ∧
      check_f_formations idx idx_t centers angles [r] sd = false := by
  have hmem : centers l ∈ otherCenters idx idx_t centers := by
    rw [otherCenters]
    exact List.mem_map_of_mem centers
      (List.mem_filter.mpr ⟨List.mem_finRange l, decide_eq_true ⟨h1, h2⟩⟩)
  have hdmem : dist2 (centers l) (oCenter idx idx_t centers angles r) ∈
      otherDistances idx idx_t centers (oCenter idx idx_t centers angles r) := by
    rw [otherDistances, if_neg (List.ne_nil_of_mem hmem)]
    exact List.mem_map_of_mem _ hmem
  have hni : ¬ intrusionCond idx idx_t centers angles r := by
    rw [intrusionCond]
    have hle := npMin_le_of_mem _ _ hdmem
    rw [h] at hle
    exact not_lt.mpr hle
  refine ⟨fun hc => hni hc.2, ?_⟩
  rw [check_f_formations, firstTrue_cons, if_neg (fun hc => hni hc.2),
    firstTrue_nil]

/-! ## Concrete evaluations of the face-to-face scenarios -/

lemma facePair_mu0 : muPoint (facePairC 0) (facePairA 0) (1 / 2) = ((1 / 2 : ℝ), (0 : ℝ)) := by
  rw [show facePairC 0 = ((0 : ℝ), (0 : ℝ)) from rfl,
    show facePairA 0 = 0 from rfl, muPoint]
  norm_num

lemma facePair_mu1 : muPoint (facePairC 1) (facePairA 1) (1 / 2) = ((1 / 2 : ℝ), (0 : ℝ)) := by
  rw [show facePairC 1 = ((1 : ℝ), (0 : ℝ)) from rfl,
    show facePairA 1 = Real.pi from rfl, muPoint]
  norm_num [Real.cos_pi, Real.sin_pi]

lemma facePair_oc : oCenter 0 1 facePairC facePairA (1 / 2) = ((1 / 2 : ℝ), (0 : ℝ)) := by
  rw [oCenter, facePair_mu0, facePair_mu1]
  norm_num

lemma facePair_orientation : orientationCond 0 1 facePairC facePairA false (1 / 2) := by
  have hdnew : dNew 0 1 facePairC facePairA false (1 / 2) = 0 := by
    rw [dNew, if_neg Bool.false_ne_true, facePair_mu0, facePair_mu1]
    exact dist2_eval _ _ 0 le_rfl (by norm_num)
  have hd0 : dist2 (facePairC 0) ((1 / 2 : ℝ), (0 : ℝ)) = 1 / 2 :=
    dist2_eval _ _ (1 / 2) (by norm_num)
      (by rw [show facePairC 0 = ((0 : ℝ), (0 : ℝ)) from rfl]; norm_num)
  have hd1 : dist2 (facePairC 1) ((1 / 2 : ℝ), (0 : ℝ)) = 1 / 2 :=
    dist2_eval _ _ (1 / 2) (by norm_num)
      (by rw [show facePairC 1 = ((1 : ℝ), (0 : ℝ)) from rfl]; norm_num)
  rw [orientationCond, hdnew, facePair_oc, hd0, hd1]
  norm_num

lemma facePair_intrusion : intrusionCond 0 1 facePairC facePairA (1 / 2) :=
  intrusion_n2 0 1 facePairC facePairA (1 / 2) (by decide) (by norm_num)

lemma facePair_check :
    check_f_formations 0 1 facePairC facePairA [(1 / 2 : ℝ)] false = true := by
  rw [check_f_formations, firstTrue_cons,
    if_pos (show fCond 0 1 facePairC facePairA false (1 / 2) from
      ⟨facePair_orientation, facePair_intrusion⟩)]

lemma trio_mu0 : muPoint (trioC 0) (trioA 0) (1 / 2) = ((1 / 2 : ℝ), (0 : ℝ)) := by
  rw [show trioC 0 = ((0 : ℝ), (0 : ℝ)) from rfl,
    show trioA 0 = 0 from rfl, muPoint]
  norm_num

lemma trio_mu1 : muPoint (trioC 1) (trioA 1) (1 / 2) = ((1 / 2 : ℝ), (0 : ℝ)) := by
  rw [show trioC 1 = ((1 : ℝ), (0 : ℝ)) from rfl,
    show trioA 1 = Real.pi from rfl, muPoint]
  norm_num [Real.cos_pi, Real.sin_pi]

lemma trio_oc : oCenter 0 1 trioC trioA (1 / 2) = ((1 / 2 : ℝ), (0 : ℝ)) := by
  rw [oCenter, trio_mu0, trio_mu1]
  norm_num

lemma trio_dist : dist2 (trioC 2) (oCenter 0 1 trioC trioA (1 / 2)) = 1 / 2 := by
  rw [trio_oc]
  exact dist2_eval _ _ (1 / 2) (by norm_num)
    (by rw [show trioC 2 = ((1 : ℝ), (0 : ℝ)) from rfl]; norm_num)

/-! ## Witnesses for the `check_f_formations` and candidate-set claims -/

/-- Witness for C1: two people one metre apart facing each other, radius 1/2:
the existential characterisation applies and yields `true`. -/
theorem check_f_formations_exists_radius_witness :
    check_f_formations 0 1 facePairC facePairA [(1 / 2 : ℝ)] false = true :=
  (check_f_formations_exists_radius 0 1 facePairC facePairA [(1 / 2 : ℝ)] false
    (by simp)).mpr
    ⟨1 / 2, List.mem_singleton_self _, facePair_orientation, facePair_intrusion⟩

/-- Witness for C6: enlarging the radius set `[1/2]` to `[1/2, 1]` preserves
the `true` result. -/
theorem check_f_formations_radii_superset_witness :
    check_f_formations 0 1 facePairC facePairA [(1 / 2 : ℝ), 1] false = true :=
  check_f_formations_radii_superset 0 1 facePairC facePairA [(1 / 2 : ℝ)]
    [(1 / 2 : ℝ), 1] false
    (fun r hr => by
      rcases List.mem_singleton.mp hr with rfl
      exact List.mem_cons_self _ _)
    facePair_check

/-- Witness for C2 (amended): with two people and orientation satisfied at the
positive radius `1/2 < 100` from the set `[1/3, 1/2]`, the result is `true`. -/
theorem n2_intrusion_never_blocks_witness :
    check_f_formations 0 1 facePairC facePairA [(1 / 3 : ℝ), (1 / 2 : ℝ)] false
      = true :=
  n2_intrusion_never_blocks facePairC facePairA 0 1 [(1 / 3 : ℝ), (1 / 2 : ℝ)]
    false (1 / 2) (by decide)
    (List.mem_cons_of_mem _ (List.mem_singleton_self _))
    (by norm_num) (by norm_num) facePair_orientation

/-- Witness for C9: a third person at `(1, 0)`, exactly `1/2` away from the
O-space center `(1/2, 0)`, forces a `false` result at radius `1/2`. -/
theorem intrusion_boundary_strict_witness :
    check_f_formations 0 1 trioC trioA [(1 / 2 : ℝ)] false = false :=
  (intrusion_boundary_strict 0 1 2 trioC trioA false (1 / 2) (by decide)
    (by decide) trio_dist).2

/-- Witness for C5: a person exactly `2` metres away enters the candidate set
for `threshold_dist = 2`. -/
theorem threshold_dist_boundary_witness : (1 : Fin 2) ∈ indices 0 farPairC 2 :=
  (threshold_dist_boundary 0 1 farPairC 2).2 (by decide)
    (distances_eval 0 1 farPairC 2 (by norm_num)
      (by
        rw [show farPairC 0 = ((0 : ℝ), (0 : ℝ)) from rfl,
          show farPairC 1 = ((2 : ℝ), (0 : ℝ)) from rfl]
        norm_num))
    (by norm_num)

/-- Witness for C3 (amended): with focal index `0` nobody has a smaller index,
so the dropped entry is `0` and the candidate set excludes it. -/
theorem candidate_set_excludes_focal_witness :
    (∃ t, sorted_idxs 0 farPairC = 0 :: t) ∧
      (0 : Fin 2) ∉ indices 0 farPairC 2 :=
  candidate_set_excludes_focal 0 farPairC 2
    (fun j hj => absurd hj (by simp [Fin.lt_def]))

/-! ## Zero-uncertainty lemmas for the probabilistic path -/

lemma laplace_sampling_zero_stds {n : ℕ} (noise : ℕ → Fin n → ℝ)
    (d : Fin n → ℝ) (s : ℕ) (el : Fin n) :
    laplace_sampling noise d (fun _ => 0) s el = d el := by
  rw [laplace_sampling]
  ring

lemma perturb_el_zero_stds {n : ℕ} (noise : ℕ → Fin n → ℝ) (d : Fin n → ℝ)
    (s : ℕ) (nc : Fin n → ℝ × ℝ) (el : Fin n) :
    perturb_el d (laplace_sampling noise d (fun _ => 0) s) nc el = nc := by
  rw [perturb_el, laplace_sampling_zero_stds]
  simp [Function.update_eq_self]

lemma new_centers_zero_stds {n : ℕ} (noise : ℕ → Fin n → ℝ) (d : Fin n → ℝ)
    (centers : Fin n → ℝ × ℝ) (s : ℕ) (idx idx_t : Fin n) :
    new_centers noise d (fun _ => 0) centers s idx idx_t = centers := by
  rw [new_centers, List.foldl_cons, perturb_el_zero_stds, List.foldl_cons,
    perturb_el_zero_stds, List.foldl_nil]
  rfl

lemma f_forms_zero_stds {n : ℕ} (noise : ℕ → Fin n → ℝ) (d : Fin n → ℝ)
    (centers : Fin n → ℝ × ℝ) (angles : Fin n → ℝ) (radii : List ℝ)
    (sd : Bool) (ns : ℕ) (idx idx_t : Fin n) :
    f_forms noise d (fun _ => 0) centers angles radii sd ns idx idx_t =
      List.replicate ns (check_f_formations idx idx_t centers angles radii sd) := by
  rw [f_forms,
    List.map_congr_left (fun s _ => by rw [new_centers_zero_stds]),
    List.map_const', List.length_range]

/-! ## Claim C7 -/

/-- C7: with all depth-noise scales exactly zero and `threshold_prob` in
`(0, 1]`, the probabilistic path (`n_samples ≥ 2`) of `social_interactions`
returns the same value as the deterministic path (`n_samples < 2`) on the
same centers, angles, thresholds and radii — for any noise draws and any
(even missing) `dds`/`stds` on the deterministic side. -/
theorem prob_path_zero_stds_collapses {n : ℕ} (noise noise' : ℕ → Fin n → ℝ)
    (idx : Fin n) (centers : Fin n → ℝ × ℝ) (angles : Fin n → ℝ)
    (d : Fin n → ℝ) (dds' stds' : Option (Fin n → ℝ)) (sd : Bool)
    (ns m : ℕ) (tp td : ℝ) (radii : List ℝ)
    (hns : 2 ≤ ns) (hm : m < 2) (h0 : 0 < tp) (h1 : tp ≤ 1) :
    social_interactions noise idx centers angles (some d) (some fun _ => 0) sd
        ns tp td radii =
      social_interactions noise' idx centers angles dds' stds' sd m tp td
        radii := by
  have key : ∀ t ∈ indices idx centers td,
      ((((f_forms noise d (fun _ => 0) centers angles radii sd ns idx t).count
          true : ℝ) / (ns : ℝ) ≥ tp) ↔
        (check_f_formations idx t centers angles radii sd = true)) := by
    intro t _
    rw [f_forms_zero_stds]
    by_cases hc : check_f_formations idx t centers angles radii sd = true
    · rw [hc]
      simp only [List.count_replicate_self]
      constructor
      · intro _
        trivial
      · intro _
        rw [div_self (Nat.cast_ne_zero.mpr (by omega : ns ≠ 0))]
        exact h1
    · rw [Bool.not_eq_true _ |>.mp hc]
      have hcount : (List.replicate ns false).count true = 0 :=
        List.count_eq_zero.mpr (fun hmem => by simp [List.mem_replicate] at hmem)
      rw [hcount]
      constructor
      · intro hge
        rw [Nat.cast_zero, zero_div] at hge
        exact absurd (lt_of_lt_of_le h0 hge) (lt_irrefl 0)
      · intro hf
        exact absurd hf (by simp)
  simp only [social_interactions]
  rw [if_neg (by omega : ¬ ns < 2), if_pos hm]
  show Except.ok (firstTrue
      (fun idx_t =>
        ((f_forms noise d (fun _ => 0) centers angles radii sd ns idx
            idx_t).count true : ℝ) / (ns : ℝ) ≥ tp)
      (indices idx centers td)) =
    Except.ok (firstTrue
      (fun idx_t =>
        check_f_formations idx idx_t centers angles radii sd = true)
      (indices idx centers td))
  exact congrArg Except.ok (firstTrue_congr _ _ _ key)

/-- Witness for C7: single-person scene, `stds = 0`, `n_samples = 2` versus
`n_samples = 0`, `threshold_prob = 1/4`. -/
theorem prob_path_zero_stds_collapses_witness :
    social_interactions noiseZero1 0 soloC soloA (some fun _ => 5)
        (some fun _ => 0) false 2 (1 / 4) 2 [(1 / 2 : ℝ)] =
      social_interactions noiseZero1 0 soloC soloA none none false 0 (1 / 4) 2
        [(1 / 2 : ℝ)] :=
  prob_path_zero_stds_collapses noiseZero1 noiseZero1 0 soloC soloA
    (fun _ => 5) none none false 2 0 (1 / 4) 2 [(1 / 2 : ℝ)]
    (by norm_num) (by norm_num) (by norm_num) (by norm_num)

/-! ## Claim C10 -/

/-- C10: on the deterministic path (`n_samples < 2`), the result of
`social_interactions` does not depend on `dds`, `stds` (present or missing)
or the noise draws, and no error is raised. -/
theorem det_path_ignores_dds_stds {n : ℕ} (noise noise' : ℕ → Fin n → ℝ)
    (idx : Fin n) (centers : Fin n → ℝ × ℝ) (angles : Fin n → ℝ)
    (dds stds dds' stds' : Option (Fin n → ℝ)) (sd : Bool) (ns : ℕ)
    (tp td : ℝ) (radii : List ℝ) (h : ns < 2) :
    social_interactions noise idx centers angles dds stds sd ns tp td radii =
        social_interactions noise' idx centers angles dds' stds' sd ns tp td
          radii ∧
      ∃ b, social_interactions noise idx centers angles dds stds sd ns tp td
          radii = Except.ok b := by
  simp only [social_interactions, if_pos h]
  exact ⟨True.intro, _, rfl⟩

/-- Witness for C10: single-person scene with `n_samples = 1`; missing
`dds`/`stds` versus present ones give the same (ok) result. -/
theorem det_path_ignores_dds_stds_witness :
    (social_interactions noiseZero1 0 soloC soloA none none false 1 (1 / 4) 2
          [(1 / 2 : ℝ)] =
        social_interactions noiseZero1 0 soloC soloA (some fun _ => 5)
          (some fun _ => 3) false 1 (1 / 4) 2 [(1 / 2 : ℝ)]) ∧
      ∃ b, social_interactions noiseZero1 0 soloC soloA none none false 1
          (1 / 4) 2 [(1 / 2 : ℝ)] = Except.ok b :=
  det_path_ignores_dds_stds noiseZero1 noiseZero1 0 soloC soloA none none
    (some fun _ => 5) (some fun _ => 3) false 1 (1 / 4) 2 [(1 / 2 : ℝ)]
    (by norm_num)

/-! ## Claim C4 -/

/-- C4, counterexample: `threshold_prob = 2` (outside `[0, 1]`) and a negative
radius `-1` raise nothing: `social_interactions` runs to completion and
produces the boolean result `false` — no invalid-input validation exists. -/
theorem no_validation_ce :
    social_interactions noiseZero1 0 soloC soloA none none false 1 2 2
      [(-1 : ℝ)] = Except.ok false := by
  simp only [social_interactions]
  rw [if_pos (by norm_num : (1 : ℕ) < 2)]
  have hidx : indices 0 soloC 2 = [] := rfl
  rw [hidx, firstTrue_nil]

/-- C4, amended: `social_interactions` performs no validation of
`threshold_prob` or of the radii: for every such arguments (valid or not) it
returns a boolean, the only error being a missing `dds`/`stds` on the
probabilistic path. -/
theorem no_validation_no_error {n : ℕ} (noise : ℕ → Fin n → ℝ) (idx : Fin n)
    (centers : Fin n → ℝ × ℝ) (angles : Fin n → ℝ)
    (dds stds : Option (Fin n → ℝ)) (sd : Bool) (ns : ℕ) (tp td : ℝ)
    (radii : List ℝ) (h : ns < 2 ∨ (dds ≠ none ∧ stds ≠ none)) :
    ∃ b, social_interactions noise idx centers angles dds stds sd ns tp td
      radii = Except.ok b := by
  by_cases hns : ns < 2
  · exact ⟨_, by simp only [social_interactions]; rw [if_pos hns]⟩
  · rcases h with h | ⟨hd, hs⟩
    · exact absurd h hns
    · rcases dds with _ | d
      · exact absurd rfl hd
      · rcases stds with _ | st
        · exact absurd rfl hs
        · exact ⟨_, by simp only [social_interactions]; rw [if_neg hns]⟩

/-- Witness for C4 (amended): the same invalid `threshold_prob = 2` and
radius `-1` produce an ok result on the deterministic path. -/
theorem no_validation_no_error_witness :
    ∃ b, social_interactions noiseZero1 0 soloC soloA none none false 0 2 2
      [(-1 : ℝ)] = Except.ok b :=
  no_validation_no_error noiseZero1 0 soloC soloA none none false 0 2 2
    [(-1 : ℝ)] (Or.inl (by norm_num))

/-! ## Claim C8 -/

/-- C8: `social_interactions` never mutates the caller-owned `centers` and
`angles` — the caller-visible state at return equals the inputs — and each
per-sample perturbation touches only the deep copy, leaving every person
other than `idx` and `idx_t` at their original position. -/
theorem social_interactions_pure {n : ℕ} (noise : ℕ → Fin n → ℝ) (idx : Fin n)
    (centers : Fin n → ℝ × ℝ) (angles : Fin n → ℝ)
    (dds stds : Option (Fin n → ℝ)) (sd : Bool) (ns : ℕ) (tp td : ℝ)
    (radii : List ℝ) (d st : Fin n → ℝ) (s : ℕ) (idx_t j : Fin n)
    (hj1 : j ≠ idx) (hj2 : j ≠ idx_t) :
    (social_interactions_run noise idx centers angles dds stds sd ns tp td
        radii).2 = (centers, angles) ∧
      new_centers noise d st centers s idx idx_t j = centers j := by
  refine ⟨rfl, ?_⟩
  simp only [new_centers, List.foldl_cons, List.foldl_nil, perturb_el]
  rw [Function.update_noteq hj2, Function.update_noteq hj1]
  rfl

/-- Witness for C8: three-person scene, pair `(0, 1)`, sample `0`: the third
person is untouched and the caller state is returned unchanged. -/
theorem social_interactions_pure_witness :
    (social_interactions_run (fun _ _ => (0 : ℝ)) 0 trioC trioA
        (some fun _ => 5) (some fun _ => 1) false 2 (1 / 4) 2
        [(1 / 2 : ℝ)]).2 = (trioC, trioA) ∧
      new_centers (fun _ _ => (0 : ℝ)) (fun _ => 5) (fun _ => 1) trioC 0 0 1 2
        = trioC 2 :=
  social_interactions_pure (fun _ _ => (0 : ℝ)) 0 trioC trioA
    (some fun _ => 5) (some fun _ => 1) false 2 (1 / 4) 2 [(1 / 2 : ℝ)]
    (fun _ => 5) (fun _ => 1) 0 1 2 (by decide) (by decide)
